import Mathlib

/-!
Verification of the query orchestrator in streamlit_app.py.

The orchestrator talks to a chat-completion endpoint.  We model the
endpoint as an oracle mapping the call number (1-based: the first request
issued is call 1) to the response it returns; a response is a stop reason
(a string, compared by the code against "end_turn" and "tool_use") and an
ordered list of content blocks.  Clock readings are opaque strings passed
in as parameters.  The orchestration functions additionally report, as
ghost outputs, the number of upstream calls issued, the final conversation
message list, and the list of progress-callback events emitted; none of
these feed back into the computation.
-/

namespace AgenticSearch

/-- A content block: text, a tool invocation request (id, tool name,
input fields as a string dictionary), or a synthesized tool result. -/
inductive ContentBlock where
  | text (s : String)
  | tool_use (id : String) (name : String) (input : List (String × String))
  | tool_result (tool_use_id : String) (content : String)
  deriving DecidableEq

/-- Python dict .get: the value at a key, or None when absent. -/
def dictGet (input : List (String × String)) (key : String) : Option String :=
  (input.find? (fun kv => kv.1 == key)).map (fun kv => kv.2)

/-- One upstream response: its stop reason and its content blocks. -/
structure Response where
  stop_reason : String
  content : List ContentBlock
  deriving DecidableEq

/-- Message content: the initial user prompt is a plain string, later
messages carry content-block lists. -/
inductive MsgContent where
  | str (s : String)
  | blocks (bs : List ContentBlock)
  deriving DecidableEq

/-- A conversation message. -/
structure Message where
  role : String
  content : MsgContent
  deriving DecidableEq

/-- The search_metadata record of comprehensive_search.  Keys that the
code inserts only on some paths (end_time, total_iterations) are Options:
none means the key is absent from the dict. -/
structure Metadata where
  start_time : String
  research_question : String
  searches_performed : List (Option String)
  tool_uses : Nat
  end_time : Option String
  total_iterations : Option Nat
  deriving DecidableEq

/-- The dict returned by comprehensive_search. -/
structure SearchResult where
  findings : String
  metadata : Metadata
  deriving DecidableEq

/-- Return value of the loop together with the ghost outputs: number of
upstream calls issued, final conversation, progress events emitted. -/
structure LoopOut where
  result : SearchResult
  calls : Nat
  messages : List Message
  events : List (String × ℚ)

/-- Accumulation of text blocks: result = ""; for block in content:
if block.type == "text": result += block.text. -/
def textConcat (content : List ContentBlock) : String :=
  content.foldl (fun result b =>
    match b with
    | ContentBlock.text s => result ++ s
    | _ => result) ""

/-- Metadata update for one tool_use block: increment tool_uses, and for
the web_search tool record input.get("query") in searches_performed. -/
def recordToolUse (md : Metadata) (name : String) (input : List (String × String)) :
    Metadata :=
  let md := { md with tool_uses := md.tool_uses + 1 }
  if name = "web_search" then
    { md with searches_performed := md.searches_performed ++ [dictGet input "query"] }
  else md

/-- The body of the tool_use branch: walk the response's content blocks in
order; for each tool_use block update the metadata and emit one
tool_result block with the matching id and the constant placeholder
content.  Returns the updated metadata and the tool_results list. -/
def processToolBlocks : List ContentBlock → Metadata → Metadata × List ContentBlock
  | [], md => (md, [])
  | ContentBlock.tool_use id name input :: rest, md =>
      let pr := processToolBlocks rest (recordToolUse md name input)
      (pr.1, ContentBlock.tool_result id "Tool executed" :: pr.2)
  | ContentBlock.text _ :: rest, md => processToolBlocks rest md
  | ContentBlock.tool_result _ _ :: rest, md => processToolBlocks rest md

/-- The fixed instruction template appended to the user prompt. -/
def promptTemplate : String :=
  "\nPlease conduct a comprehensive academic literature search:\n" ++
  "1. Search Strategy: Plan multi-stage approach\n" ++
  "2. Initial Searches: Broad landscape survey  \n" ++
  "3. Targeted Searches: Deep dive into specifics\n" ++
  "4. Synthesis: Comprehensive summary with themes, methods, findings\n\n" ++
  "For each source provide:\n- Full citation (APA format)\n" ++
  "- Key contributions\n- Methodology\n- Relevant findings\n\nOrganize by themes.\n"

/-- user_prompt construction of comprehensive_search; the focus-areas line
appears only when the list is present and non-empty (Python truthiness). -/
def buildUserPrompt (research_question : String) (focus_areas : Option (List String))
    (time_frame : String) : String :=
  let p := "Research Question: " ++ research_question ++ "\n"
  let p := match focus_areas with
    | some l => if l.isEmpty then p else
        p ++ "Focus Areas: " ++ String.intercalate ", " l ++ "\n"
    | none => p
  p ++ "Time Frame: " ++ time_frame ++ "\n\n" ++ promptTemplate

/-- The findings string of the cap-exhaustion return. -/
def incompleteMsg : String := "Search incomplete - max iterations reached"

/-- Progress event emitted at the top of each loop iteration. -/
def preEvents (progress : Bool) (maxIt : Int) (iter : Nat)
    (events : List (String × ℚ)) : List (String × ℚ) :=
  if progress then
    events ++ [("🔄 Iteration " ++ toString iter ++ "/" ++ toString maxIt ++ "...",
      (iter : ℚ) / (maxIt : ℚ))]
  else events

/-- Progress event emitted on the natural-completion exit. -/
def doneEvents (progress : Bool) (events : List (String × ℚ)) : List (String × ℚ) :=
  if progress then events ++ [("✅ Search completed!", 1)] else events

/-- The agentic while-loop of comprehensive_search.  fuel is the number of
remaining passes of "while iteration < max_iterations", iter the Python
iteration counter, msgs the conversation, md the metadata, calls and
events the ghost accumulators. -/
def searchLoop (u : Nat → Response) (t_end : String) (maxIt : Int) (progress : Bool) :
    Nat → Nat → List Message → Metadata → Nat → List (String × ℚ) → LoopOut
  | 0, _, msgs, md, calls, events => ⟨⟨incompleteMsg, md⟩, calls, msgs, events⟩
  | fuel + 1, iter, msgs, md, calls, events =>
      if (u (iter + 1)).stop_reason = "end_turn" then
        ⟨⟨textConcat (u (iter + 1)).content,
          { md with end_time := some t_end, total_iterations := some (iter + 1) }⟩,
          calls + 1, msgs,
          doneEvents progress (preEvents progress maxIt (iter + 1) events)⟩
      else if (u (iter + 1)).stop_reason = "tool_use" then
        searchLoop u t_end maxIt progress fuel (iter + 1)
          (msgs ++ [⟨"assistant", MsgContent.blocks (u (iter + 1)).content⟩,
            ⟨"user", MsgContent.blocks (processToolBlocks (u (iter + 1)).content md).2⟩])
          (processToolBlocks (u (iter + 1)).content md).1
          (calls + 1)
          (preEvents progress maxIt (iter + 1) events)
      else
        searchLoop u t_end maxIt progress fuel (iter + 1) msgs md (calls + 1)
          (preEvents progress maxIt (iter + 1) events)

/-- comprehensive_search: build the prompt, initialize the conversation and
metadata, run the loop.  t_start and t_end are the clock readings taken at
the start and (if reached) at the natural-completion exit. -/
def comprehensive_search (u : Nat → Response) (t_start t_end : String)
    (research_question : String) (focus_areas : Option (List String))
    (time_frame : String) (max_iterations : Int) (progress : Bool) : LoopOut :=
  searchLoop u t_end max_iterations progress max_iterations.toNat 0
    [⟨"user", MsgContent.str (buildUserPrompt research_question focus_areas time_frame)⟩]
    ⟨t_start, research_question, [], 0, none, none⟩ 0 []

/-- Return value of quick_search with the ghost outputs. -/
structure QuickOut where
  result : String
  calls : Nat
  events : List (String × ℚ)

/-- quick_search: one unconditional upstream request; the result is the
concatenation of the text blocks of that single response. -/
def quick_search (u : Nat → Response) (query : String) (progress : Bool) : QuickOut :=
  let events : List (String × ℚ) := if progress then [("🔍 Searching...", 3/10)] else []
  let events := if progress then events ++ [("✅ Processing results...", 8/10)] else events
  let result := textConcat (u 1).content
  let events := if progress then events ++ [("✅ Complete!", 1)] else events
  ⟨result, 1, events⟩

/-- The Quick Search button handler of main(): an empty query is warned
about and the searcher is never invoked; otherwise quick_search runs with
the progress callback supplied.  none models the warning path. -/
def quick_search_submit (u : Nat → Response) (query : String) : Option QuickOut :=
  if query = "" then none
  else some (quick_search u query true)

/-- The Comprehensive Search button handler of main(): an empty research
question is warned about and the searcher is never invoked; a non-empty
one is forwarded with focus_areas if focus_areas else None. -/
def comprehensive_search_submit (u : Nat → Response) (t_start t_end : String)
    (research_question : String) (focus_areas : List String)
    (time_frame : String) (max_iterations : Int) : Option LoopOut :=
  if research_question = "" then none
  else some (comprehensive_search u t_start t_end research_question
    (if focus_areas.isEmpty then none else some focus_areas)
    time_frame max_iterations true)

/-- Upstream calls issued by the Quick Search button handler. -/
def quickSubmitCalls : Option QuickOut → Nat
  | none => 0
  | some q => q.calls

/-- Upstream calls issued by the Comprehensive Search button handler. -/
def compSubmitCalls : Option LoopOut → Nat
  | none => 0
  | some o => o.calls

/-- The tool_result block the loop synthesizes for a tool_use block;
none for other block kinds. -/
def toolResultFor : ContentBlock → Option ContentBlock
  | ContentBlock.tool_use id _ _ => some (ContentBlock.tool_result id "Tool executed")
  | _ => none

/-- Every assistant message in the list carries content blocks and is
immediately followed by a user message whose content is exactly one
tool_result per tool_use block of the assistant message, in order, each
with the matching identifier. -/
def answeredConversation : List Message → Prop
  | [] => True
  | m :: rest =>
      (m.role = "assistant" →
        ∃ bs, m.content = MsgContent.blocks bs ∧
          ∃ rest2, rest =
            Message.mk "user" (MsgContent.blocks (bs.filterMap toolResultFor)) :: rest2) ∧
      answeredConversation rest

/-- The query arguments of the web_search tool_use blocks of a content
list, in order. -/
def webQueries (content : List ContentBlock) : List (Option String) :=
  content.filterMap fun b =>
    match b with
    | ContentBlock.tool_use _ name input =>
        if name = "web_search" then some (dictGet input "query") else none
    | _ => none

/-- Number of tool_use blocks whose declared tool is web_search. -/
def countWebSearch (content : List ContentBlock) : Nat :=
  content.countP fun b =>
    match b with
    | ContentBlock.tool_use _ name _ => decide (name = "web_search")
    | _ => false

/-- Whether a content list holds any tool_use block. -/
def hasToolUse (content : List ContentBlock) : Bool :=
  content.any fun b =>
    match b with
    | ContentBlock.tool_use _ _ _ => true
    | _ => false

/-- Concatenation of webQueries over calls a+1, a+2, ..., a+n, in order. -/
def webQueriesSeg (u : Nat → Response) (a : Nat) : Nat → List (Option String)
  | 0 => []
  | n + 1 => webQueries (u (a + 1)).content ++ webQueriesSeg u (a + 1) n

/-- Total countWebSearch over calls a+1, a+2, ..., a+n. -/
def countWebSearchSeg (u : Nat → Response) (a : Nat) : Nat → Nat
  | 0 => 0
  | n + 1 => countWebSearch (u (a + 1)).content + countWebSearchSeg u (a + 1) n

/-- The upstream contract: every response stops for tool use, or stops at
a natural end and then carries no tool_use block. -/
def WellFormedUpstream (u : Nat → Response) : Prop :=
  ∀ j, (u j).stop_reason = "tool_use" ∨
    ((u j).stop_reason = "end_turn" ∧ hasToolUse (u j).content = false)

/-- The text of a block: the string of a text block, empty otherwise. -/
def textOf : ContentBlock → String
  | ContentBlock.text s => s
  | _ => ""

/-- Whether a block is a text block. -/
def isTextBlock : ContentBlock → Bool
  | ContentBlock.text _ => true
  | _ => false

/-- A concrete upstream that always asks for one web_search tool call. -/
def uAlwaysTool : Nat → Response := fun _ =>
  ⟨"tool_use", [ContentBlock.tool_use "t1" "web_search" [("query", "q1")]]⟩

/-- A concrete upstream that always stops with an unrecognized stop reason. -/
def uUnknownStop : Nat → Response := fun _ => ⟨"max_tokens", []⟩

/-- A concrete upstream: one tool round, then natural completion with two
text blocks (Scenario B of the spec). -/
def uScenarioB : Nat → Response := fun j =>
  if j = 1 then ⟨"tool_use", [ContentBlock.tool_use "t1" "web_search" [("query", "q1")]]⟩
  else ⟨"end_turn", [ContentBlock.text "Part A. ", ContentBlock.text "Part B."]⟩

/-- A concrete upstream that completes immediately with one text block. -/
def uEndTurnHello : Nat → Response := fun _ => ⟨"end_turn", [ContentBlock.text "hello"]⟩

/-! ## Lemmas about text concatenation -/

theorem textConcat_eq_foldl (l : List ContentBlock) :
    textConcat l = l.foldl (fun result b => result ++ textOf b) "" := by
  unfold textConcat
  congr 1
  funext result b
  cases b <;> simp [textOf, String.append_empty]

theorem foldl_append_textOf (l : List ContentBlock) (a : String) :
    l.foldl (fun result b => result ++ textOf b) a
      = a ++ l.foldl (fun result b => result ++ textOf b) "" := by
  induction l generalizing a with
  | nil => simp [String.append_empty]
  | cons b rest ih =>
      simp only [List.foldl_cons]
      rw [ih (a ++ textOf b), ih ("" ++ textOf b)]
      simp [String.append_assoc, String.empty_append]

theorem textConcat_cons (b : ContentBlock) (l : List ContentBlock) :
    textConcat (b :: l) = textOf b ++ textConcat l := by
  rw [textConcat_eq_foldl, textConcat_eq_foldl]
  simp only [List.foldl_cons]
  rw [foldl_append_textOf]
  simp [String.empty_append]

theorem textConcat_length (l : List ContentBlock) :
    (textConcat l).length = (l.map (fun b => (textOf b).length)).sum := by
  induction l with
  | nil => rfl
  | cons b rest ih => rw [textConcat_cons, String.length_append, ih]; simp

theorem textConcat_of_no_text (l : List ContentBlock)
    (h : ∀ b ∈ l, isTextBlock b = false) : textConcat l = "" := by
  induction l with
  | nil => rfl
  | cons b rest ih =>
      rw [textConcat_cons]
      have hb : textOf b = "" := by
        cases b with
        | text s =>
            have hs := h (ContentBlock.text s) (List.mem_cons_self _ _)
            simp [isTextBlock] at hs
        | tool_use i n inp => rfl
        | tool_result i s => rfl
      rw [hb, ih (fun x hx => h x (by simp [hx]))]
      exact String.empty_append ""

theorem length_pos_of_ne_empty (s : String) (h : s ≠ "") : 0 < s.length := by
  rcases s with ⟨d⟩
  cases d with
  | nil => exact absurd rfl h
  | cons a t => simp [String.length]

/-! ## Lemmas about the tool_use branch body -/

theorem processToolBlocks_snd (c : List ContentBlock) :
    ∀ md, (processToolBlocks c md).2 = c.filterMap toolResultFor := by
  induction c with
  | nil => intro md; rfl
  | cons b rest ih =>
      intro md
      cases b with
      | tool_use i n inp => simp [processToolBlocks, toolResultFor, List.filterMap_cons, ih]
      | text s => simp [processToolBlocks, toolResultFor, List.filterMap_cons, ih]
      | tool_result i s => simp [processToolBlocks, toolResultFor, List.filterMap_cons, ih]

theorem recordToolUse_end_time (md : Metadata) (n : String) (inp : List (String × String)) :
    (recordToolUse md n inp).end_time = md.end_time := by
  by_cases h : n = "web_search" <;> simp [recordToolUse, h]

theorem recordToolUse_total_iterations (md : Metadata) (n : String)
    (inp : List (String × String)) :
    (recordToolUse md n inp).total_iterations = md.total_iterations := by
  by_cases h : n = "web_search" <;> simp [recordToolUse, h]

theorem recordToolUse_searches (md : Metadata) (n : String) (inp : List (String × String)) :
    (recordToolUse md n inp).searches_performed
      = md.searches_performed ++ (if n = "web_search" then [dictGet inp "query"] else []) := by
  by_cases h : n = "web_search" <;> simp [recordToolUse, h]

theorem processToolBlocks_end_time (c : List ContentBlock) :
    ∀ md, (processToolBlocks c md).1.end_time = md.end_time := by
  induction c with
  | nil => intro md; rfl
  | cons b rest ih =>
      intro md
      cases b with
      | tool_use i n inp => simp [processToolBlocks, ih, recordToolUse_end_time]
      | text s => simp [processToolBlocks, ih]
      | tool_result i s => simp [processToolBlocks, ih]

theorem processToolBlocks_total_iterations (c : List ContentBlock) :
    ∀ md, (processToolBlocks c md).1.total_iterations = md.total_iterations := by
  induction c with
  | nil => intro md; rfl
  | cons b rest ih =>
      intro md
      cases b with
      | tool_use i n inp => simp [processToolBlocks, ih, recordToolUse_total_iterations]
      | text s => simp [processToolBlocks, ih]
      | tool_result i s => simp [processToolBlocks, ih]

theorem webQueries_cons_tool (i n : String) (inp : List (String × String))
    (rest : List ContentBlock) :
    webQueries (ContentBlock.tool_use i n inp :: rest)
      = (if n = "web_search" then [dictGet inp "query"] else []) ++ webQueries rest := by
  by_cases h : n = "web_search" <;> simp [webQueries, List.filterMap_cons, h]

theorem processToolBlocks_searches (c : List ContentBlock) :
    ∀ md, (processToolBlocks c md).1.searches_performed
      = md.searches_performed ++ webQueries c := by
  induction c with
  | nil => intro md; simp [processToolBlocks, webQueries]
  | cons b rest ih =>
      intro md
      cases b with
      | tool_use i n inp =>
          rw [webQueries_cons_tool]
          simp only [processToolBlocks]
          rw [ih, recordToolUse_searches, List.append_assoc]
      | text s => simp [processToolBlocks, webQueries, List.filterMap_cons, ih]
      | tool_result i s => simp [processToolBlocks, webQueries, List.filterMap_cons, ih]

theorem webQueries_of_no_tool (c : List ContentBlock) :
    hasToolUse c = false → webQueries c = [] := by
  induction c with
  | nil => intro _; rfl
  | cons b rest ih =>
      intro h
      cases b with
      | tool_use i n inp => simp [hasToolUse, List.any_cons] at h
      | text s =>
          have hr : hasToolUse rest = false := by
            simpa [hasToolUse, List.any_cons] using h
          simpa [webQueries, List.filterMap_cons] using ih hr
      | tool_result i s =>
          have hr : hasToolUse rest = false := by
            simpa [hasToolUse, List.any_cons] using h
          simpa [webQueries, List.filterMap_cons] using ih hr

theorem webQueries_length (c : List ContentBlock) :
    (webQueries c).length = countWebSearch c := by
  induction c with
  | nil => rfl
  | cons b rest ih =>
      cases b with
      | text s =>
          simpa [webQueries, countWebSearch, List.filterMap_cons, List.countP_cons] using ih
      | tool_result i s =>
          simpa [webQueries, countWebSearch, List.filterMap_cons, List.countP_cons] using ih
      | tool_use i n inp =>
          rw [webQueries_cons_tool]
          have hc : countWebSearch (ContentBlock.tool_use i n inp :: rest)
              = countWebSearch rest + (if n = "web_search" then 1 else 0) := by
            simp [countWebSearch, List.countP_cons]
          rw [hc]
          by_cases hn : n = "web_search" <;> simp [hn, ih]

theorem webQueriesSeg_length (u : Nat → Response) :
    ∀ n a, (webQueriesSeg u a n).length = countWebSearchSeg u a n := by
  intro n
  induction n with
  | zero => intro a; rfl
  | succ n ih =>
      intro a
      simp [webQueriesSeg, countWebSearchSeg, webQueries_length, ih]

/-! ## Lemmas about the conversation invariant -/

theorem answeredConversation_append_pair (bs : List ContentBlock) (ms : List Message) :
    answeredConversation ms →
    answeredConversation (ms ++
      [Message.mk "assistant" (MsgContent.blocks bs),
       Message.mk "user" (MsgContent.blocks (bs.filterMap toolResultFor))]) := by
  induction ms with
  | nil =>
      intro _
      simp only [List.nil_append, answeredConversation]
      refine ⟨fun _ => ⟨bs, rfl, [], rfl⟩, fun hrole => ?_, trivial⟩
      simp at hrole
  | cons m rest ih =>
      intro h
      obtain ⟨hm, hrest⟩ := h
      simp only [List.cons_append, answeredConversation]
      refine ⟨?_, ih hrest⟩
      intro hrole
      obtain ⟨bs2, hc, rest2, hr⟩ := hm hrole
      exact ⟨bs2, hc, rest2 ++
        [Message.mk "assistant" (MsgContent.blocks bs),
         Message.mk "user" (MsgContent.blocks (bs.filterMap toolResultFor))],
        by rw [hr]; simp⟩

/-! ## Lemmas about the agentic loop -/

theorem searchLoop_calls_le (u : Nat → Response) (t : String) (maxIt : Int) (p : Bool) :
    ∀ fuel iter msgs md calls ev,
      (searchLoop u t maxIt p fuel iter msgs md calls ev).calls ≤ calls + fuel := by
  intro fuel
  induction fuel with
  | zero => intro iter msgs md calls ev; simp [searchLoop]
  | succ fuel ih =>
      intro iter msgs md calls ev
      by_cases h1 : (u (iter + 1)).stop_reason = "end_turn"
      · simp only [searchLoop, if_pos h1]
        omega
      · by_cases h2 : (u (iter + 1)).stop_reason = "tool_use"
        · simp only [searchLoop, if_neg h1, if_pos h2]
          exact le_trans (ih _ _ _ _ _) (by omega)
        · simp only [searchLoop, if_neg h1, if_neg h2]
          exact le_trans (ih _ _ _ _ _) (by omega)

theorem searchLoop_answered (u : Nat → Response) (t : String) (maxIt : Int) (p : Bool) :
    ∀ fuel iter msgs md calls ev, answeredConversation msgs →
      answeredConversation (searchLoop u t maxIt p fuel iter msgs md calls ev).messages := by
  intro fuel
  induction fuel with
  | zero => intro iter msgs md calls ev h; simpa [searchLoop] using h
  | succ fuel ih =>
      intro iter msgs md calls ev h
      by_cases h1 : (u (iter + 1)).stop_reason = "end_turn"
      · simpa only [searchLoop, if_pos h1] using h
      · by_cases h2 : (u (iter + 1)).stop_reason = "tool_use"
        · simp only [searchLoop, if_neg h1, if_pos h2]
          refine ih _ _ _ _ _ ?_
          rw [processToolBlocks_snd]
          exact answeredConversation_append_pair _ _ h
        · simp only [searchLoop, if_neg h1, if_neg h2]
          exact ih _ _ _ _ _ h

theorem searchLoop_progress_free (u : Nat → Response) (t : String) (maxIt : Int)
    (p1 p2 : Bool) :
    ∀ fuel iter msgs md calls e1 e2,
      (searchLoop u t maxIt p1 fuel iter msgs md calls e1).result
          = (searchLoop u t maxIt p2 fuel iter msgs md calls e2).result ∧
        (searchLoop u t maxIt p1 fuel iter msgs md calls e1).calls
          = (searchLoop u t maxIt p2 fuel iter msgs md calls e2).calls ∧
        (searchLoop u t maxIt p1 fuel iter msgs md calls e1).messages
          = (searchLoop u t maxIt p2 fuel iter msgs md calls e2).messages := by
  intro fuel
  induction fuel with
  | zero => intro iter msgs md calls e1 e2; exact ⟨rfl, rfl, rfl⟩
  | succ fuel ih =>
      intro iter msgs md calls e1 e2
      by_cases h1 : (u (iter + 1)).stop_reason = "end_turn"
      · simp [searchLoop, h1]
      · by_cases h2 : (u (iter + 1)).stop_reason = "tool_use"
        · simp only [searchLoop, if_neg h1, if_pos h2]
          exact ih _ _ _ _ _ _
        · simp only [searchLoop, if_neg h1, if_neg h2]
          exact ih _ _ _ _ _ _

theorem searchLoop_end_turn (u : Nat → Response) (t : String) (maxIt : Int) (p : Bool)
    (k : Nat) (hk : (u k).stop_reason = "end_turn") :
    ∀ fuel iter msgs md calls ev, iter < k → k ≤ iter + fuel →
      (∀ j, iter < j → j < k → (u j).stop_reason ≠ "end_turn") →
      (searchLoop u t maxIt p fuel iter msgs md calls ev).result.findings
          = textConcat (u k).content ∧
        (searchLoop u t maxIt p fuel iter msgs md calls ev).calls = calls + (k - iter) := by
  intro fuel
  induction fuel with
  | zero => intro iter msgs md calls ev h1 h2 _; omega
  | succ fuel ih =>
      intro iter msgs md calls ev h1 h2 hmid
      by_cases hik : iter + 1 = k
      · have he : (u (iter + 1)).stop_reason = "end_turn" := by rw [hik]; exact hk
        simp only [searchLoop, if_pos he]
        exact ⟨by rw [hik], by omega⟩
      · have hlt : iter + 1 < k := by omega
        have hne : (u (iter + 1)).stop_reason ≠ "end_turn" := hmid _ (by omega) hlt
        by_cases htool : (u (iter + 1)).stop_reason = "tool_use"
        · simp only [searchLoop, if_neg hne, if_pos htool]
          have H := ih (iter + 1)
            (msgs ++ [⟨"assistant", MsgContent.blocks (u (iter + 1)).content⟩,
              ⟨"user", MsgContent.blocks (processToolBlocks (u (iter + 1)).content md).2⟩])
            (processToolBlocks (u (iter + 1)).content md).1 (calls + 1)
            (preEvents p maxIt (iter + 1) ev) hlt (by omega)
            (fun j hj1 hj2 => hmid j (by omega) hj2)
          exact ⟨H.1, by rw [H.2]; omega⟩
        · simp only [searchLoop, if_neg hne, if_neg htool]
          have H := ih (iter + 1) msgs md (calls + 1)
            (preEvents p maxIt (iter + 1) ev) hlt (by omega)
            (fun j hj1 hj2 => hmid j (by omega) hj2)
          exact ⟨H.1, by rw [H.2]; omega⟩

theorem searchLoop_no_end (u : Nat → Response) (t : String) (maxIt : Int) (p : Bool) :
    ∀ fuel iter msgs md calls ev,
      (∀ j, iter < j → j ≤ iter + fuel → (u j).stop_reason ≠ "end_turn") →
      (searchLoop u t maxIt p fuel iter msgs md calls ev).result.findings = incompleteMsg ∧
        (searchLoop u t maxIt p fuel iter msgs md calls ev).result.metadata.end_time
          = md.end_time ∧
        (searchLoop u t maxIt p fuel iter msgs md calls ev).result.metadata.total_iterations
          = md.total_iterations ∧
        (searchLoop u t maxIt p fuel iter msgs md calls ev).calls = calls + fuel := by
  intro fuel
  induction fuel with
  | zero => intro iter msgs md calls ev _; exact ⟨rfl, rfl, rfl, rfl⟩
  | succ fuel ih =>
      intro iter msgs md calls ev h
      have hne : (u (iter + 1)).stop_reason ≠ "end_turn" := h _ (by omega) (by omega)
      by_cases htool : (u (iter + 1)).stop_reason = "tool_use"
      · simp only [searchLoop, if_neg hne, if_pos htool]
        have H := ih (iter + 1)
          (msgs ++ [⟨"assistant", MsgContent.blocks (u (iter + 1)).content⟩,
            ⟨"user", MsgContent.blocks (processToolBlocks (u (iter + 1)).content md).2⟩])
          (processToolBlocks (u (iter + 1)).content md).1 (calls + 1)
          (preEvents p maxIt (iter + 1) ev)
          (fun j hj1 hj2 => h j (by omega) (by omega))
        refine ⟨H.1, ?_, ?_, by rw [H.2.2.2]; omega⟩
        · rw [H.2.1, processToolBlocks_end_time]
        · rw [H.2.2.1, processToolBlocks_total_iterations]
      · simp only [searchLoop, if_neg hne, if_neg htool]
        have H := ih (iter + 1) msgs md (calls + 1)
          (preEvents p maxIt (iter + 1) ev)
          (fun j hj1 hj2 => h j (by omega) (by omega))
        exact ⟨H.1, H.2.1, H.2.2.1, by rw [H.2.2.2]; omega⟩

theorem searchLoop_total_iterations (u : Nat → Response) (t : String) (maxIt : Int)
    (p : Bool) :
    ∀ fuel iter msgs md calls ev, calls = iter →
      (searchLoop u t maxIt p fuel iter msgs md calls ev).result.metadata.total_iterations
          = md.total_iterations ∨
        (searchLoop u t maxIt p fuel iter msgs md calls ev).result.metadata.total_iterations
          = some (searchLoop u t maxIt p fuel iter msgs md calls ev).calls := by
  intro fuel
  induction fuel with
  | zero => intro iter msgs md calls ev _; exact Or.inl rfl
  | succ fuel ih =>
      intro iter msgs md calls ev hci
      by_cases h1 : (u (iter + 1)).stop_reason = "end_turn"
      · right
        simp only [searchLoop, if_pos h1]
        rw [hci]
      · by_cases h2 : (u (iter + 1)).stop_reason = "tool_use"
        · simp only [searchLoop, if_neg h1, if_pos h2]
          rcases ih (iter + 1)
            (msgs ++ [⟨"assistant", MsgContent.blocks (u (iter + 1)).content⟩,
              ⟨"user", MsgContent.blocks (processToolBlocks (u (iter + 1)).content md).2⟩])
            (processToolBlocks (u (iter + 1)).content md).1 (calls + 1)
            (preEvents p maxIt (iter + 1) ev) (by omega) with hl | hr
          · left
            rw [hl, processToolBlocks_total_iterations]
          · right
            exact hr
        · simp only [searchLoop, if_neg h1, if_neg h2]
          exact ih (iter + 1) msgs md (calls + 1) (preEvents p maxIt (iter + 1) ev)
            (by omega)

theorem searchLoop_searches (u : Nat → Response) (t : String) (maxIt : Int) (p : Bool)
    (hwf : WellFormedUpstream u) :
    ∀ fuel iter msgs md calls ev,
      calls ≤ (searchLoop u t maxIt p fuel iter msgs md calls ev).calls ∧
        (searchLoop u t maxIt p fuel iter msgs md calls ev).result.metadata.searches_performed
          = md.searches_performed ++
            webQueriesSeg u iter
              ((searchLoop u t maxIt p fuel iter msgs md calls ev).calls - calls) := by
  intro fuel
  induction fuel with
  | zero =>
      intro iter msgs md calls ev
      exact ⟨le_refl _, by simp [searchLoop, webQueriesSeg]⟩
  | succ fuel ih =>
      intro iter msgs md calls ev
      rcases hwf (iter + 1) with htool | ⟨hend, hnotool⟩
      · have hne : (u (iter + 1)).stop_reason ≠ "end_turn" := by
          rw [htool]; decide
        simp only [searchLoop, if_neg hne, if_pos htool]
        obtain ⟨Hle, Hs⟩ := ih (iter + 1)
          (msgs ++ [⟨"assistant", MsgContent.blocks (u (iter + 1)).content⟩,
            ⟨"user", MsgContent.blocks (processToolBlocks (u (iter + 1)).content md).2⟩])
          (processToolBlocks (u (iter + 1)).content md).1 (calls + 1)
          (preEvents p maxIt (iter + 1) ev)
        refine ⟨by omega, ?_⟩
        rw [Hs, processToolBlocks_searches]
        have hn : (searchLoop u t maxIt p fuel (iter + 1)
            (msgs ++ [⟨"assistant", MsgContent.blocks (u (iter + 1)).content⟩,
              ⟨"user", MsgContent.blocks (processToolBlocks (u (iter + 1)).content md).2⟩])
            (processToolBlocks (u (iter + 1)).content md).1 (calls + 1)
            (preEvents p maxIt (iter + 1) ev)).calls - calls
          = ((searchLoop u t maxIt p fuel (iter + 1)
            (msgs ++ [⟨"assistant", MsgContent.blocks (u (iter + 1)).content⟩,
              ⟨"user", MsgContent.blocks (processToolBlocks (u (iter + 1)).content md).2⟩])
            (processToolBlocks (u (iter + 1)).content md).1 (calls + 1)
            (preEvents p maxIt (iter + 1) ev)).calls - (calls + 1)) + 1 := by
          omega
        rw [hn, webQueriesSeg, List.append_assoc]
      · simp only [searchLoop, if_pos hend]
        refine ⟨by omega, ?_⟩
        have h1 : calls + 1 - calls = 1 := by omega
        rw [h1]
        have : webQueriesSeg u iter 1 = webQueries (u (iter + 1)).content := by
          simp [webQueriesSeg]
        rw [this, webQueries_of_no_tool _ hnotool, List.append_nil]

/-! ## The claims -/

/-- Claim C1: in every execution of comprehensive_search, every tool_use
block of an appended assistant response is answered by exactly one
tool_result block with the matching identifier, all gathered in the single
user message appended immediately after, before the next upstream call. -/
theorem c1_every_tool_use_answered (u : Nat → Response) (t_start t_end rq : String)
    (fa : Option (List String)) (tf : String) (cap : Int) (p : Bool) :
    answeredConversation (comprehensive_search u t_start t_end rq fa tf cap p).messages := by
  unfold comprehensive_search
  apply searchLoop_answered
  refine ⟨fun h => ?_, trivial⟩
  have h2 : ("user" : String) = "assistant" := h
  exact absurd h2 (by decide)

/-- Claim C2 (code bug): an unrecognized termination signal does not
surface as an error; the loop silently retries until the cap is exhausted
and returns the incomplete-search findings normally.  With cap 1 and stop
reason max_tokens on call 1, the call returns the incomplete message after
one upstream call, with no error and no end time. -/
theorem c2_unknown_stop_reason_silent :
    (comprehensive_search uUnknownStop "t0" "t1" "Q" none "last 3 years" 1 false).result.findings
        = incompleteMsg ∧
      (comprehensive_search uUnknownStop "t0" "t1" "Q" none "last 3 years" 1 false).calls
        = 1 ∧
      (comprehensive_search uUnknownStop "t0" "t1" "Q" none
          "last 3 years" 1 false).result.metadata.end_time = none := by
  refine ⟨rfl, rfl, rfl⟩

/-- Claim C3 counterexample: called on the empty question, the entry
points themselves issue an upstream request (one call each), refuting the
claim that quick_search and comprehensive_search reject the empty question
with zero network calls. -/
theorem c3_counterexample_entry_points_call :
    (quick_search uEndTurnHello "" false).calls = 1 ∧
      (comprehensive_search uEndTurnHello "t0" "t1" "" none "last 3 years" 8 false).calls
        = 1 := by
  refine ⟨rfl, rfl⟩

/-- Claim C3 amended: the empty-question rejection lives in the
presentation shell, not in the entry points: both submit handlers warn and
return without invoking the searcher, so zero upstream calls are made. -/
theorem c3_shell_rejects_empty_question (u : Nat → Response) (t_start t_end : String)
    (fa : List String) (tf : String) (cap : Int) :
    quick_search_submit u "" = none ∧
      comprehensive_search_submit u t_start t_end "" fa tf cap = none ∧
      quickSubmitCalls (quick_search_submit u "") = 0 ∧
      compSubmitCalls (comprehensive_search_submit u t_start t_end "" fa tf cap) = 0 := by
  refine ⟨rfl, rfl, rfl, rfl⟩

/-- Claim C4: with a non-empty question and a positive iteration cap,
comprehensive_search issues at most cap upstream calls. -/
theorem c4_at_most_cap_calls (u : Nat → Response) (t_start t_end rq : String)
    (fa : Option (List String)) (tf : String) (cap : Int) (p : Bool)
    (hq : rq ≠ "") (hcap : 0 < cap) :
    ((comprehensive_search u t_start t_end rq fa tf cap p).calls : Int) ≤ cap := by
  unfold comprehensive_search
  have h := searchLoop_calls_le u t_end cap p cap.toNat 0
    [⟨"user", MsgContent.str (buildUserPrompt rq fa tf)⟩]
    ⟨t_start, rq, [], 0, none, none⟩ 0 []
  omega

/-- Witness for claim C4 at a concrete input: cap 1, upstream always asks
for a tool. -/
theorem c4_cap_witness :
    ((comprehensive_search uAlwaysTool "t0" "t1" "Q" none "last 3 years" 1 false).calls : Int)
      ≤ 1 :=
  c4_at_most_cap_calls uAlwaysTool "t0" "t1" "Q" none "last 3 years" 1 false
    (by decide) (by decide)

/-- Claim C5: when the upstream first signals natural completion on call
k with k ≤ cap, comprehensive_search returns the in-order concatenation of
the text blocks of that response as findings, after exactly k upstream
calls. -/
theorem c5_natural_completion (u : Nat → Response) (t_start t_end rq : String)
    (fa : Option (List String)) (tf : String) (cap : Int) (p : Bool) (k : Nat)
    (hk0 : 0 < k) (hkcap : (k : Int) ≤ cap)
    (hmid : ∀ j, 0 < j → j < k → (u j).stop_reason ≠ "end_turn")
    (hend : (u k).stop_reason = "end_turn") :
    (comprehensive_search u t_start t_end rq fa tf cap p).result.findings
        = textConcat (u k).content ∧
      (comprehensive_search u t_start t_end rq fa tf cap p).calls = k := by
  unfold comprehensive_search
  have H := searchLoop_end_turn u t_end cap p k hend cap.toNat 0
    [⟨"user", MsgContent.str (buildUserPrompt rq fa tf)⟩]
    ⟨t_start, rq, [], 0, none, none⟩ 0 [] hk0 (by omega) hmid
  exact ⟨H.1, by rw [H.2]; omega⟩

/-- Witness for claim C5, Scenario B: cap 5, tool round on call 1,
completion on call 2 with text blocks "Part A. " and "Part B.". -/
theorem c5_scenario_b_witness :
    (comprehensive_search uScenarioB "t0" "t1" "Q" none "last 3 years" 5 false).result.findings
        = "Part A. Part B." ∧
      (comprehensive_search uScenarioB "t0" "t1" "Q" none "last 3 years" 5 false).calls
        = 2 := by
  have H := c5_natural_completion uScenarioB "t0" "t1" "Q" none "last 3 years" 5 false 2
    (by decide) (by decide)
    (fun j hj1 hj2 => by
      have hj : j = 1 := by omega
      rw [hj]; decide)
    (by decide)
  exact ⟨H.1.trans (by rfl), H.2⟩

/-- Claim C6: when the cap is exhausted without natural completion,
comprehensive_search returns normally with the fixed incomplete-search
findings and the metadata carries neither total_iterations nor end_time;
in any execution total_iterations is either absent or equals the number
of upstream calls made (set only on the natural-completion exit). -/
theorem c6_cap_exhaustion (u : Nat → Response) (t_start t_end rq : String)
    (fa : Option (List String)) (tf : String) (cap : Int) (p : Bool)
    (hne : ∀ j : Nat, 0 < j → (j : Int) ≤ cap → (u j).stop_reason ≠ "end_turn") :
    (comprehensive_search u t_start t_end rq fa tf cap p).result.findings = incompleteMsg ∧
      (comprehensive_search u t_start t_end rq fa tf cap p).result.metadata.total_iterations
        = none ∧
      (comprehensive_search u t_start t_end rq fa tf cap p).result.metadata.end_time
        = none ∧
      (∀ v : Nat → Response, ∀ s1 s2 q2 tf2 : String, ∀ fa2 : Option (List String),
        ∀ cap2 : Int, ∀ p2 : Bool,
        (comprehensive_search v s1 s2 q2 fa2 tf2 cap2 p2).result.metadata.total_iterations
            = none ∨
          (comprehensive_search v s1 s2 q2 fa2 tf2 cap2 p2).result.metadata.total_iterations
            = some (comprehensive_search v s1 s2 q2 fa2 tf2 cap2 p2).calls) := by
  unfold comprehensive_search
  have H := searchLoop_no_end u t_end cap p cap.toNat 0
    [⟨"user", MsgContent.str (buildUserPrompt rq fa tf)⟩]
    ⟨t_start, rq, [], 0, none, none⟩ 0 []
    (fun j hj1 hj2 => hne j hj1 (by omega))
  refine ⟨H.1, H.2.2.1, H.2.1, ?_⟩
  intro v s1 s2 q2 tf2 fa2 cap2 p2
  exact searchLoop_total_iterations v s2 cap2 p2 cap2.toNat 0
    [⟨"user", MsgContent.str (buildUserPrompt q2 fa2 tf2)⟩]
    ⟨s1, q2, [], 0, none, none⟩ 0 [] rfl

/-- Witness for claim C6, Scenario A: cap 1, upstream always asks for a
tool; the incomplete-search findings come back with no total_iterations
and no end_time. -/
theorem c6_scenario_a_witness :
    (comprehensive_search uAlwaysTool "t0" "t1" "Q" none "last 3 years" 1 false).result.findings
        = incompleteMsg ∧
      (comprehensive_search uAlwaysTool "t0" "t1" "Q" none
          "last 3 years" 1 false).result.metadata.total_iterations = none ∧
      (comprehensive_search uAlwaysTool "t0" "t1" "Q" none
          "last 3 years" 1 false).result.metadata.end_time = none := by
  have H := c6_cap_exhaustion uAlwaysTool "t0" "t1" "Q" none "last 3 years" 1 false
    (fun j hj1 hj2 h =>
      absurd (show ("tool_use" : String) = "end_turn" from h) (by decide))
  exact ⟨H.1, H.2.1, H.2.2.1⟩

/-- Claim C7: under the upstream contract, searches_performed holds
exactly the query arguments of the web_search tool_use blocks of all
consumed responses, in call order, and its length equals the total number
of such blocks across all iterations. -/
theorem c7_searches_performed (u : Nat → Response) (t_start t_end rq : String)
    (fa : Option (List String)) (tf : String) (cap : Int) (p : Bool)
    (hwf : WellFormedUpstream u) :
    (comprehensive_search u t_start t_end rq fa tf cap p).result.metadata.searches_performed
        = webQueriesSeg u 0 (comprehensive_search u t_start t_end rq fa tf cap p).calls ∧
      (comprehensive_search u t_start t_end rq fa tf cap
          p).result.metadata.searches_performed.length
        = countWebSearchSeg u 0
            (comprehensive_search u t_start t_end rq fa tf cap p).calls := by
  unfold comprehensive_search
  obtain ⟨Hle, Hs⟩ := searchLoop_searches u t_end cap p hwf cap.toNat 0
    [⟨"user", MsgContent.str (buildUserPrompt rq fa tf)⟩]
    ⟨t_start, rq, [], 0, none, none⟩ 0 []
  have Hs2 : (searchLoop u t_end cap p cap.toNat 0
      [⟨"user", MsgContent.str (buildUserPrompt rq fa tf)⟩]
      ⟨t_start, rq, [], 0, none, none⟩ 0 []).result.metadata.searches_performed
      = webQueriesSeg u 0 (searchLoop u t_end cap p cap.toNat 0
          [⟨"user", MsgContent.str (buildUserPrompt rq fa tf)⟩]
          ⟨t_start, rq, [], 0, none, none⟩ 0 []).calls := by
    simpa using Hs
  exact ⟨Hs2, by rw [Hs2, webQueriesSeg_length]⟩

/-- Witness for claim C7 at a concrete input: the always-tool upstream
with cap 2 satisfies the contract. -/
theorem c7_searches_witness :
    (comprehensive_search uAlwaysTool "t0" "t1" "Q" none
        "last 3 years" 2 false).result.metadata.searches_performed
        = webQueriesSeg uAlwaysTool 0
            (comprehensive_search uAlwaysTool "t0" "t1" "Q" none "last 3 years" 2 false).calls ∧
      (comprehensive_search uAlwaysTool "t0" "t1" "Q" none
          "last 3 years" 2 false).result.metadata.searches_performed.length
        = countWebSearchSeg uAlwaysTool 0
            (comprehensive_search uAlwaysTool "t0" "t1" "Q" none "last 3 years" 2 false).calls :=
  c7_searches_performed uAlwaysTool "t0" "t1" "Q" none "last 3 years" 2 false
    (fun j => Or.inl rfl)

/-- Claim C8: quick_search returns the concatenation of the text blocks
of the single upstream response: non-empty when some non-empty text block
is present, empty when the response has no text block. -/
theorem c8_quick_search_concat (u : Nat → Response) (query : String) (p : Bool)
    (hq : query ≠ "") :
    (quick_search u query p).result = textConcat (u 1).content ∧
      ((∃ s, ContentBlock.text s ∈ (u 1).content ∧ s ≠ "") →
        (quick_search u query p).result ≠ "") ∧
      ((∀ b ∈ (u 1).content, isTextBlock b = false) →
        (quick_search u query p).result = "") := by
  have hr : (quick_search u query p).result = textConcat (u 1).content := rfl
  refine ⟨hr, ?_, ?_⟩
  · rintro ⟨s, hmem, hsne⟩ hc
    rw [hr] at hc
    have hlen : (textConcat (u 1).content).length = 0 := by rw [hc]; rfl
    rw [textConcat_length] at hlen
    have hmem2 : s.length ∈ ((u 1).content.map (fun b => (textOf b).length)) := by
      simpa [textOf] using List.mem_map_of_mem (fun b => (textOf b).length) hmem
    have hle := List.single_le_sum (fun x _ => Nat.zero_le x) _ hmem2
    have hpos := length_pos_of_ne_empty s hsne
    omega
  · intro hno
    rw [hr]
    exact textConcat_of_no_text _ hno

/-- Witness for claim C8 at a concrete input: a response with one
non-empty text block. -/
theorem c8_quick_witness :
    (quick_search uEndTurnHello "q" false).result = textConcat (uEndTurnHello 1).content ∧
      ((∃ s, ContentBlock.text s ∈ (uEndTurnHello 1).content ∧ s ≠ "") →
        (quick_search uEndTurnHello "q" false).result ≠ "") ∧
      ((∀ b ∈ (uEndTurnHello 1).content, isTextBlock b = false) →
        (quick_search uEndTurnHello "q" false).result = "") :=
  c8_quick_search_concat uEndTurnHello "q" false (by decide)

/-- Claim C9: for a fixed upstream response sequence, the findings and
metadata of comprehensive_search and the string of quick_search are the
same whether the progress callback is supplied or absent; the callback is
purely observational. -/
theorem c9_progress_callback_observational (u : Nat → Response)
    (t_start t_end rq : String) (fa : Option (List String)) (tf : String) (cap : Int)
    (q : String) :
    (comprehensive_search u t_start t_end rq fa tf cap true).result
        = (comprehensive_search u t_start t_end rq fa tf cap false).result ∧
      (comprehensive_search u t_start t_end rq fa tf cap true).calls
        = (comprehensive_search u t_start t_end rq fa tf cap false).calls ∧
      (quick_search u q true).result = (quick_search u q false).result := by
  unfold comprehensive_search
  obtain ⟨h1, h2, h3⟩ := searchLoop_progress_free u t_end cap true false cap.toNat 0
    [⟨"user", MsgContent.str (buildUserPrompt rq fa tf)⟩]
    ⟨t_start, rq, [], 0, none, none⟩ 0 [] []
  exact ⟨h1, h2, rfl⟩

/-- Claim C10: with a non-positive iteration cap, no upstream call is
made and comprehensive_search returns the incomplete-search findings with
the freshly initialized metadata: start time and question set, no
searches, zero tool uses, and neither end_time nor total_iterations. -/
theorem c10_nonpositive_cap (u : Nat → Response) (t_start t_end rq : String)
    (fa : Option (List String)) (tf : String) (cap : Int) (p : Bool)
    (hcap : cap ≤ 0) :
    (comprehensive_search u t_start t_end rq fa tf cap p).calls = 0 ∧
      (comprehensive_search u t_start t_end rq fa tf cap p).result.findings
        = incompleteMsg ∧
      (comprehensive_search u t_start t_end rq fa tf cap p).result.metadata
        = ⟨t_start, rq, [], 0, none, none⟩ := by
  have h0 : cap.toNat = 0 := by omega
  unfold comprehensive_search
  rw [h0]
  exact ⟨rfl, rfl, rfl⟩

/-- Witness for claim C10 at cap 0. -/
theorem c10_zero_cap_witness :
    (comprehensive_search uAlwaysTool "t0" "t1" "Q" none "last 3 years" 0 false).calls = 0 ∧
      (comprehensive_search uAlwaysTool "t0" "t1" "Q" none
          "last 3 years" 0 false).result.findings = incompleteMsg ∧
      (comprehensive_search uAlwaysTool "t0" "t1" "Q" none
          "last 3 years" 0 false).result.metadata = ⟨"t0", "Q", [], 0, none, none⟩ :=
  c10_nonpositive_cap uAlwaysTool "t0" "t1" "Q" none "last 3 years" 0 false (by decide)

end AgenticSearch
